import Mathlib

/-!
# The JNI boundary adapter of react-native-rs

Shallow embedding of `android/cpp-adapter.cpp` (the exported JNI function
`Java_com_reactnativers_ReactNativeRsModule_nativeExecute`) and of the interface
declared in `cpp/react-native-rs.h`.

The adapter calls five operations that it does not define: three of the host
runtime (`JNIEnv::GetStringUTFChars`, `JNIEnv::ReleaseStringUTFChars`,
`JNIEnv::NewStringUTF`) and two of the native core (`reactnativers::execute`,
`reactnativers::free_string`).  They are parameters of the embedding: arbitrary
state transformers over an arbitrary world state `σ`.  The adapter itself is
translated statement by statement into explicit state passing.
-/

set_option autoImplicit false

namespace ReactNativeRs

/-! ## Data model -/

/-- A native address (`const char *`).  The value `0` is `nullptr`. -/
abbrev Ptr := Nat

/-- A host string reference (`jstring`).  The value `0` is the null reference. -/
abbrev JString := Nat

/-- A host class reference (`jclass`). -/
abbrev JClass := Nat

/-- One `char`. -/
abbrev Byte := Nat

/-- The null pointer, also the null `jstring`. -/
def nullptr : Nat := 0

/-- The constant `JNI_FALSE` of `jni.h`; passed as the `isCopy` argument it is a null
`jboolean *`. -/
def JNI_FALSE : Ptr := 0

/-- The host runtime operations the adapter calls through `env->`. -/
structure JNIEnv (σ : Type) where
  /-- Acquire a null-terminated view of a host string; `nullptr` on failure. -/
  GetStringUTFChars : JString → Ptr → σ → Ptr × σ
  /-- Give a view back to the host runtime. -/
  ReleaseStringUTFChars : JString → Ptr → σ → σ
  /-- Build a host string from a null-terminated buffer; null on failure. -/
  NewStringUTF : Ptr → σ → JString × σ

/-- The two functions of `namespace reactnativers` declared in `react-native-rs.h`. -/
structure Reactnativers (σ : Type) where
  /-- The declaration `const char* execute(const char * cmd);`. -/
  execute : Ptr → σ → Ptr × σ
  /-- The declaration `void free_string(const char *ptr);`. -/
  free_string : Ptr → σ → σ

/-! ## The adapter -/

/-- The function `Java_com_reactnativers_ReactNativeRsModule_nativeExecute` of
`android/cpp-adapter.cpp`, statement by statement. -/
def Java_com_reactnativers_ReactNativeRsModule_nativeExecute {σ : Type}
    (reactnativers : Reactnativers σ) (env : JNIEnv σ) (_type : JClass) (cmd : JString)
    (s : σ) : JString × σ :=
  -- const char *native_cmd = env->GetStringUTFChars(cmd, JNI_FALSE);
  let r1 := env.GetStringUTFChars cmd JNI_FALSE s
  let native_cmd := r1.1
  -- if (native_cmd == nullptr) { return nullptr; }
  if native_cmd = nullptr then
    (nullptr, r1.2)
  else
    -- const char *res = reactnativers::execute(native_cmd);
    let r2 := reactnativers.execute native_cmd r1.2
    let res := r2.1
    -- env->ReleaseStringUTFChars(cmd, native_cmd);
    let s3 := env.ReleaseStringUTFChars cmd native_cmd r2.2
    -- jstring result = env->NewStringUTF(res);
    let r4 := env.NewStringUTF res s3
    let result := r4.1
    -- reactnativers::free_string(res);
    let s5 := reactnativers.free_string res r4.2
    -- return result;
    (result, s5)

/-! ## Observing the boundary operations -/

/-- One boundary operation, recorded when it returns, with its arguments and its
return value. -/
inductive Op where
  | GetStringUTFChars (str : JString) (isCopy : Ptr) (ret : Ptr)
  | execute (cmd : Ptr) (ret : Ptr)
  | ReleaseStringUTFChars (str : JString) (utf : Ptr)
  | NewStringUTF (bytes : Ptr) (ret : JString)
  | free_string (ptr : Ptr)
  deriving DecidableEq

/-- A world state together with the record of what crossed the boundary: the operations
in the order in which they returned, and a counter that every call of `execute` bumps. -/
structure Probe (σ : Type) where
  world : σ
  ops : List Op
  allocs : Nat

/-- The host operations of `env`, each one also appending itself to the record. -/
def JNIEnv.traced {σ : Type} (env : JNIEnv σ) : JNIEnv (Probe σ) :=
  ⟨fun str isCopy p =>
      let r := env.GetStringUTFChars str isCopy p.world
      (r.1, ⟨r.2, p.ops ++ [Op.GetStringUTFChars str isCopy r.1], p.allocs⟩),
   fun str utf p =>
      ⟨env.ReleaseStringUTFChars str utf p.world,
        p.ops ++ [Op.ReleaseStringUTFChars str utf], p.allocs⟩,
   fun bytes p =>
      let r := env.NewStringUTF bytes p.world
      (r.1, ⟨r.2, p.ops ++ [Op.NewStringUTF bytes r.1], p.allocs⟩)⟩

/-- The core operations of `rs`, each one also appending itself to the record; `execute`
also increments the allocation counter. -/
def Reactnativers.traced {σ : Type} (rs : Reactnativers σ) : Reactnativers (Probe σ) :=
  ⟨fun cmd p =>
      let r := rs.execute cmd p.world
      (r.1, ⟨r.2, p.ops ++ [Op.execute cmd r.1], p.allocs + 1⟩),
   fun ptr p =>
      ⟨rs.free_string ptr p.world, p.ops ++ [Op.free_string ptr], p.allocs⟩⟩

/-- One observed run of the adapter on `cmd` from the probed state `p`. -/
def nativeExecute {σ : Type} (rs : Reactnativers σ) (env : JNIEnv σ) (cmd : JString)
    (p : Probe σ) : JString × Probe σ :=
  Java_com_reactnativers_ReactNativeRsModule_nativeExecute rs.traced env.traced 0 cmd p

/-- A fresh probe around the world `s`: nothing recorded yet. -/
def Probe.start {σ : Type} (s : σ) : Probe σ := ⟨s, [], 0⟩

/-- The operations recorded by one run of the adapter on `cmd` from the world `s`. -/
def trace {σ : Type} (rs : Reactnativers σ) (env : JNIEnv σ) (cmd : JString) (s : σ) :
    List Op :=
  (nativeExecute rs env cmd (Probe.start s)).2.ops

/-- The view pointer that `GetStringUTFChars` returns in a run on `cmd` from `s`. -/
def viewOf {σ : Type} (env : JNIEnv σ) (cmd : JString) (s : σ) : Ptr :=
  (env.GetStringUTFChars cmd JNI_FALSE s).1

/-- The pointer that `execute` returns in a run on `cmd` from `s`
(meaningful when the view is not null). -/
def resOf {σ : Type} (rs : Reactnativers σ) (env : JNIEnv σ) (cmd : JString) (s : σ) : Ptr :=
  (rs.execute (viewOf env cmd s) (env.GetStringUTFChars cmd JNI_FALSE s).2).1

/-- The world in which `NewStringUTF` is called in a run on `cmd` from `s`: the view has
been acquired, `execute` has returned and the view has been released. -/
def worldAtCopy {σ : Type} (rs : Reactnativers σ) (env : JNIEnv σ) (cmd : JString) (s : σ) : σ :=
  env.ReleaseStringUTFChars cmd (viewOf env cmd s)
    (rs.execute (viewOf env cmd s) (env.GetStringUTFChars cmd JNI_FALSE s).2).2

/-- The host string that `NewStringUTF` returns in a run on `cmd` from `s`
(meaningful when the view is not null). -/
def copyOf {σ : Type} (rs : Reactnativers σ) (env : JNIEnv σ) (cmd : JString) (s : σ) :
    JString :=
  (env.NewStringUTF (resOf rs env cmd s) (worldAtCopy rs env cmd s)).1

/-- Whether an operation gives memory back: the release of a view or the release of a
result buffer. -/
def Op.isDealloc : Op → Bool
  | .ReleaseStringUTFChars _ _ => true
  | .free_string _ => true
  | _ => false

/-- The pointer an operation gives back, if it gives one back. -/
def Op.freed : Op → Option Ptr
  | .ReleaseStringUTFChars _ utf => some utf
  | .free_string ptr => some ptr
  | _ => none

/-- Whether an operation is a call of `free_string`. -/
def Op.isFreeString : Op → Bool
  | .free_string _ => true
  | _ => false

/-- Whether an operation is a call of `ReleaseStringUTFChars`. -/
def Op.isRelease : Op → Bool
  | .ReleaseStringUTFChars _ _ => true
  | _ => false

/-- The world right after `execute` has returned in a run on `cmd` from `s`, before the
view is released. -/
def worldAfterExecute {σ : Type} (rs : Reactnativers σ) (env : JNIEnv σ) (cmd : JString)
    (s : σ) : σ :=
  (rs.execute (viewOf env cmd s) (env.GetStringUTFChars cmd JNI_FALSE s).2).2

/-! ## Native memory -/

/-- A table from addresses (or handles) to contents: the live allocations, newest first. -/
abbrev Table (α : Type) := List (Nat × α)

/-- The content stored under `key`, if `key` is live. -/
def load {α : Type} : Table α → Nat → Option α
  | [], _ => none
  | (a, x) :: t, key => if a = key then some x else load t key

/-- A key that is not null and lies above every live key. -/
def freshKey {α : Type} : Table α → Nat
  | [] => 1
  | (a, _) :: t => max (a + 1) (freshKey t)

/-- Allocation: store `x` under a fresh key and return the key. -/
def alloc {α : Type} (t : Table α) (x : α) : Nat × Table α :=
  (freshKey t, (freshKey t, x) :: t)

/-- Deallocation: the allocation under `key` is no longer live. -/
def dealloc {α : Type} : Table α → Nat → Table α
  | [], _ => []
  | (a, x) :: t, key => if a = key then dealloc t key else (a, x) :: dealloc t key

/-- The native heap: base address of each live buffer and its raw bytes. -/
abbrev Mem := Table (List Byte)

/-- The null-terminated byte string that starts at `p`: the bytes of the live buffer at
`p` before its first zero byte; nothing when `p` is not a live buffer or the buffer holds
no terminator. -/
def cstr (m : Mem) (p : Ptr) : Option (List Byte) :=
  match load m p with
  | none => none
  | some raw => if 0 ∈ raw then some (raw.takeWhile (fun c => c != 0)) else none

/-! ## The core executor -/

/-- The opaque command semantics: a capability from command bytes to result bytes, whose
internal failure carries an error-describing payload. -/
abbrev Logic := List Byte → Except (List Byte) (List Byte)

/-- The bytes the executor answers with: the result, or on internal failure the
error-describing payload. -/
def payload (logic : Logic) (command : List Byte) : List Byte :=
  match logic command with
  | .ok r => r
  | .error e => e

/-- Modelled from the spec: the body of `reactnativers::execute`, of which `src/` holds
only the declaration in `react-native-rs.h`.  Spec, Core Executor: it accepts a borrowed,
null-terminated byte string, consumes it as opaque bytes up to the terminator and produces
a newly allocated, null-terminated byte string containing the result; an internal failure
is represented as content of the returned string.  Its behaviour on a null pointer or on a
pointer that references no null-terminated sequence is undefined: `none`. -/
def execute (logic : Logic) (cmd : Ptr) (m : Mem) : Option (Ptr × Mem) :=
  if cmd = nullptr then none
  else
    match cstr m cmd with
    | none => none
    | some command => some (alloc m (payload logic command ++ [0]))

/-- Modelled from the spec: the body of `reactnativers::free_string`, of which `src/`
holds only the declaration.  Spec, Core Executor: the explicit deallocation operation for
strings the executor allocated. -/
def free_string (ptr : Ptr) (m : Mem) : Mem :=
  dealloc m ptr

/-! ## A reference machine -/

/-- A machine state: the native heap, which holds the views and the result buffers, and
the host string objects with their content. -/
structure Machine where
  native : Mem
  strings : Table (List Byte)

/-- Modelled from the spec: the host runtime operations, which are not code of this
repository.  Spec, Boundary Adapter protocol: step 1 acquires a read-only, null-terminated
view of the host string and fails when the host cannot provide it (here: the reference
denotes no string); step 3 releases the view; step 4 copies the bytes of a buffer into a
new host string object (absent when there is no null-terminated buffer to read). -/
def referenceEnv : JNIEnv Machine :=
  ⟨fun str _isCopy M =>
      match load M.strings str with
      | none => (nullptr, M)
      | some content => ((alloc M.native (content ++ [0])).1,
          ⟨(alloc M.native (content ++ [0])).2, M.strings⟩),
   fun _str utf M => ⟨dealloc M.native utf, M.strings⟩,
   fun bytes M =>
      match cstr M.native bytes with
      | none => (nullptr, M)
      | some content => ((alloc M.strings content).1, ⟨M.native, (alloc M.strings content).2⟩)⟩

/-- The core executor with the command semantics `logic`, on the reference machine.  Where
the behaviour of `execute` is undefined the machine returns null and changes nothing. -/
def referenceCore (logic : Logic) : Reactnativers Machine :=
  ⟨fun cmd M =>
      match execute logic cmd M.native with
      | none => (nullptr, M)
      | some r => (r.1, ⟨r.2, M.strings⟩),
   fun ptr M => ⟨free_string ptr M.native, M.strings⟩⟩

/-- A core whose `execute` returns a null pointer for every command. -/
def nullCore : Reactnativers Machine :=
  ⟨fun _cmd M => (nullptr, M), fun ptr M => ⟨free_string ptr M.native, M.strings⟩⟩

/-- A host that cannot build any new string: `NewStringUTF` returns null. -/
def exhaustedEnv : JNIEnv Machine :=
  ⟨referenceEnv.GetStringUTFChars, referenceEnv.ReleaseStringUTFChars,
    fun _bytes M => (nullptr, M)⟩

/-- The bytes of `ping`. -/
def ping : List Byte := [112, 105, 110, 103]

/-- The bytes of `pong ✓` in UTF-8; the check mark U+2713 takes the three bytes
`e2 9c 93`. -/
def pongCheck : List Byte := [112, 111, 110, 103, 32, 226, 156, 147]

/-- The bytes of `unknown`. -/
def unknown : List Byte := [117, 110, 107, 110, 111, 119, 110]

/-- A command semantics: `ping` is answered with `pong ✓`, every other command fails
internally with the payload `unknown`. -/
def pingLogic : Logic := fun command =>
  if command = ping then .ok pongCheck else .error unknown

/-- A machine with an empty native heap and two host strings: `ping` under reference 1 and
`zip` under reference 2. -/
def bootMachine : Machine := ⟨[], [(2, [122, 105, 112]), (1, ping)]⟩

/-- A run whose view acquisition fails records the acquisition and nothing else. -/
theorem nativeExecute_null_view {σ : Type} (rs : Reactnativers σ) (env : JNIEnv σ)
    (cmd : JString) (p : Probe σ) (h : viewOf env cmd p.world = nullptr) :
    nativeExecute rs env cmd p =
      (nullptr, ⟨(env.GetStringUTFChars cmd JNI_FALSE p.world).2,
        p.ops ++ [Op.GetStringUTFChars cmd JNI_FALSE nullptr], p.allocs⟩) := by
  unfold viewOf at h
  simp [nativeExecute, Java_com_reactnativers_ReactNativeRsModule_nativeExecute,
    JNIEnv.traced, h]

/-- A run whose view acquisition succeeds records the five operations in order, whatever
`execute` and `NewStringUTF` return. -/
theorem nativeExecute_view {σ : Type} (rs : Reactnativers σ) (env : JNIEnv σ)
    (cmd : JString) (p : Probe σ) (h : viewOf env cmd p.world ≠ nullptr) :
    nativeExecute rs env cmd p =
      (copyOf rs env cmd p.world,
        ⟨rs.free_string (resOf rs env cmd p.world)
            (env.NewStringUTF (resOf rs env cmd p.world) (worldAtCopy rs env cmd p.world)).2,
          p.ops ++ [Op.GetStringUTFChars cmd JNI_FALSE (viewOf env cmd p.world),
            Op.execute (viewOf env cmd p.world) (resOf rs env cmd p.world),
            Op.ReleaseStringUTFChars cmd (viewOf env cmd p.world),
            Op.NewStringUTF (resOf rs env cmd p.world) (copyOf rs env cmd p.world),
            Op.free_string (resOf rs env cmd p.world)],
          p.allocs + 1⟩) := by
  unfold viewOf at h
  simp [nativeExecute, Java_com_reactnativers_ReactNativeRsModule_nativeExecute,
    JNIEnv.traced, Reactnativers.traced, copyOf, resOf, worldAtCopy, viewOf, h]

/-- The trace of a run whose view acquisition succeeds. -/
theorem trace_view {σ : Type} (rs : Reactnativers σ) (env : JNIEnv σ)
    (cmd : JString) (s : σ) (h : viewOf env cmd s ≠ nullptr) :
    trace rs env cmd s =
      [Op.GetStringUTFChars cmd JNI_FALSE (viewOf env cmd s),
        Op.execute (viewOf env cmd s) (resOf rs env cmd s),
        Op.ReleaseStringUTFChars cmd (viewOf env cmd s),
        Op.NewStringUTF (resOf rs env cmd s) (copyOf rs env cmd s),
        Op.free_string (resOf rs env cmd s)] := by
  have key := nativeExecute_view rs env cmd (Probe.start s) h
  unfold trace
  rw [key]
  rfl

/-- The result of a run from a fresh probe whose view acquisition succeeds. -/
theorem result_view {σ : Type} (rs : Reactnativers σ) (env : JNIEnv σ)
    (cmd : JString) (s : σ) (h : viewOf env cmd s ≠ nullptr) :
    (nativeExecute rs env cmd (Probe.start s)).1 = copyOf rs env cmd s ∧
      (nativeExecute rs env cmd (Probe.start s)).2.world =
        rs.free_string (resOf rs env cmd s)
          (env.NewStringUTF (resOf rs env cmd s) (worldAtCopy rs env cmd s)).2 := by
  have key := nativeExecute_view rs env cmd (Probe.start s) h
  rw [key]
  exact ⟨rfl, rfl⟩

/-- The trace of a run whose view acquisition fails. -/
theorem trace_null_view {σ : Type} (rs : Reactnativers σ) (env : JNIEnv σ)
    (cmd : JString) (s : σ) (h : viewOf env cmd s = nullptr) :
    trace rs env cmd s = [Op.GetStringUTFChars cmd JNI_FALSE nullptr] := by
  have key := nativeExecute_null_view rs env cmd (Probe.start s) h
  unfold trace
  rw [key]
  rfl

/-- C1: in a run whose view acquisition succeeds and in which `execute` returns a non-null
buffer, `free_string` is called exactly once, its argument is the pointer `execute`
returned in that run, and the only operations of the run that give memory back are the
release of the view, applied to the view pointer, and that one `free_string`, applied to
the result pointer; so when the result buffer is not the view itself (the executor
returns a newly allocated buffer) no operation other than that `free_string` gives the
result pointer back. -/
theorem free_string_exactly_once {σ : Type} (rs : Reactnativers σ) (env : JNIEnv σ)
    (cmd : JString) (s : σ)
    (hview : viewOf env cmd s ≠ nullptr) (hres : resOf rs env cmd s ≠ nullptr) :
    (trace rs env cmd s).filter Op.isFreeString = [Op.free_string (resOf rs env cmd s)] ∧
      (trace rs env cmd s).count (Op.free_string (resOf rs env cmd s)) = 1 ∧
      Op.execute (viewOf env cmd s) (resOf rs env cmd s) ∈ trace rs env cmd s ∧
      (trace rs env cmd s).filter Op.isDealloc =
        [Op.ReleaseStringUTFChars cmd (viewOf env cmd s),
          Op.free_string (resOf rs env cmd s)] ∧
      (resOf rs env cmd s ≠ viewOf env cmd s →
        ∀ o ∈ trace rs env cmd s, o.freed = some (resOf rs env cmd s) →
          o = Op.free_string (resOf rs env cmd s)) := by
  have _ := hres
  rw [trace_view rs env cmd s hview]
  refine ⟨by simp [Op.isFreeString], by simp [List.count_cons], by simp,
    by simp [Op.isDealloc], ?_⟩
  intro hne o ho hfreed
  simp only [List.mem_cons, List.mem_singleton, List.not_mem_nil, or_false] at ho
  rcases ho with rfl | rfl | rfl | rfl | rfl
  · simp [Op.freed] at hfreed
  · simp [Op.freed] at hfreed
  · simp only [Op.freed, Option.some.injEq] at hfreed
    exact absurd hfreed.symm hne
  · simp [Op.freed] at hfreed
  · rfl

/-- C1, at a concrete run: the command `ping` on the reference machine. -/
theorem free_string_exactly_once_witness :
    (trace (referenceCore pingLogic) referenceEnv 1 bootMachine).filter Op.isFreeString =
        [Op.free_string (resOf (referenceCore pingLogic) referenceEnv 1 bootMachine)] ∧
      (trace (referenceCore pingLogic) referenceEnv 1 bootMachine).count
          (Op.free_string (resOf (referenceCore pingLogic) referenceEnv 1 bootMachine)) = 1 ∧
      Op.execute (viewOf referenceEnv 1 bootMachine)
          (resOf (referenceCore pingLogic) referenceEnv 1 bootMachine) ∈
        trace (referenceCore pingLogic) referenceEnv 1 bootMachine ∧
      (trace (referenceCore pingLogic) referenceEnv 1 bootMachine).filter Op.isDealloc =
        [Op.ReleaseStringUTFChars 1 (viewOf referenceEnv 1 bootMachine),
          Op.free_string (resOf (referenceCore pingLogic) referenceEnv 1 bootMachine)] ∧
      (resOf (referenceCore pingLogic) referenceEnv 1 bootMachine ≠
          viewOf referenceEnv 1 bootMachine →
        ∀ o ∈ trace (referenceCore pingLogic) referenceEnv 1 bootMachine,
          o.freed = some (resOf (referenceCore pingLogic) referenceEnv 1 bootMachine) →
            o = Op.free_string (resOf (referenceCore pingLogic) referenceEnv 1 bootMachine)) :=
  free_string_exactly_once (referenceCore pingLogic) referenceEnv 1 bootMachine
    (by decide) (by decide)

/-! ## Failure to acquire the view -/

/-- C2: when `GetStringUTFChars` returns null the adapter returns null and performs no
further boundary operation: the record grows by the failed acquisition alone (no
`execute`, no `free_string`, no `NewStringUTF`, no `ReleaseStringUTFChars`), the world is
the one the acquisition left, and the allocation counter that `execute` increments is
unchanged. -/
theorem null_view_aborts {σ : Type} (rs : Reactnativers σ) (env : JNIEnv σ)
    (cmd : JString) (p : Probe σ) (hview : viewOf env cmd p.world = nullptr) :
    (nativeExecute rs env cmd p).1 = nullptr ∧
      (nativeExecute rs env cmd p).2.ops =
        p.ops ++ [Op.GetStringUTFChars cmd JNI_FALSE nullptr] ∧
      (∀ o ∈ trace rs env cmd p.world, o = Op.GetStringUTFChars cmd JNI_FALSE nullptr) ∧
      (nativeExecute rs env cmd p).2.allocs = p.allocs ∧
      (nativeExecute rs env cmd p).2.world =
        (env.GetStringUTFChars cmd JNI_FALSE p.world).2 := by
  rw [nativeExecute_null_view rs env cmd p hview, trace_null_view rs env cmd p.world hview]
  simp

/-- C2, at a concrete run: reference 3 denotes no string on the reference machine, and the
counter stands at 7 before the call. -/
theorem null_view_aborts_witness :
    (nativeExecute (referenceCore pingLogic) referenceEnv 3 ⟨bootMachine, [], 7⟩).1 = nullptr ∧
      (nativeExecute (referenceCore pingLogic) referenceEnv 3 ⟨bootMachine, [], 7⟩).2.ops =
        [] ++ [Op.GetStringUTFChars 3 JNI_FALSE nullptr] ∧
      (∀ o ∈ trace (referenceCore pingLogic) referenceEnv 3 bootMachine,
        o = Op.GetStringUTFChars 3 JNI_FALSE nullptr) ∧
      (nativeExecute (referenceCore pingLogic) referenceEnv 3 ⟨bootMachine, [], 7⟩).2.allocs = 7 ∧
      (nativeExecute (referenceCore pingLogic) referenceEnv 3 ⟨bootMachine, [], 7⟩).2.world =
        (referenceEnv.GetStringUTFChars 3 JNI_FALSE bootMachine).2 :=
  null_view_aborts (referenceCore pingLogic) referenceEnv 3 ⟨bootMachine, [], 7⟩ (by decide)

/-! ## A null result of `execute` -/

/-- C3, refuted as stated: on the reference machine with a core whose `execute` returns
null, the view of `ping` is acquired, `execute` returns null, and the run then calls
`NewStringUTF` with the null pointer and `free_string` with the null pointer. -/
theorem null_result_is_copied_and_released :
    viewOf referenceEnv 1 bootMachine ≠ nullptr ∧
      resOf nullCore referenceEnv 1 bootMachine = nullptr ∧
      Op.NewStringUTF nullptr nullptr ∈ trace nullCore referenceEnv 1 bootMachine ∧
      Op.free_string nullptr ∈ trace nullCore referenceEnv 1 bootMachine := by
  decide

/-- C3, amended: the adapter does not test the pointer `execute` returns.  When the view
acquisition succeeds and `execute` returns null, the run is the same five operations as
for a non-null result: the view is released, `NewStringUTF` is called once with the null
pointer, `free_string` is called once with the null pointer, and the adapter returns what
`NewStringUTF` returned for the null pointer. -/
theorem null_result_not_guarded {σ : Type} (rs : Reactnativers σ) (env : JNIEnv σ)
    (cmd : JString) (s : σ)
    (hview : viewOf env cmd s ≠ nullptr) (hres : resOf rs env cmd s = nullptr) :
    trace rs env cmd s =
        [Op.GetStringUTFChars cmd JNI_FALSE (viewOf env cmd s),
          Op.execute (viewOf env cmd s) nullptr,
          Op.ReleaseStringUTFChars cmd (viewOf env cmd s),
          Op.NewStringUTF nullptr (env.NewStringUTF nullptr (worldAtCopy rs env cmd s)).1,
          Op.free_string nullptr] ∧
      (nativeExecute rs env cmd (Probe.start s)).1 =
        (env.NewStringUTF nullptr (worldAtCopy rs env cmd s)).1 := by
  rw [trace_view rs env cmd s hview, (result_view rs env cmd s hview).1]
  simp [copyOf, hres]

/-- C3 amended, at a concrete run: `ping` on the reference machine with the null core. -/
theorem null_result_not_guarded_witness :
    trace nullCore referenceEnv 1 bootMachine =
        [Op.GetStringUTFChars 1 JNI_FALSE (viewOf referenceEnv 1 bootMachine),
          Op.execute (viewOf referenceEnv 1 bootMachine) nullptr,
          Op.ReleaseStringUTFChars 1 (viewOf referenceEnv 1 bootMachine),
          Op.NewStringUTF nullptr
            (referenceEnv.NewStringUTF nullptr (worldAtCopy nullCore referenceEnv 1 bootMachine)).1,
          Op.free_string nullptr] ∧
      (nativeExecute nullCore referenceEnv 1 (Probe.start bootMachine)).1 =
        (referenceEnv.NewStringUTF nullptr (worldAtCopy nullCore referenceEnv 1 bootMachine)).1 :=
  null_result_not_guarded nullCore referenceEnv 1 bootMachine (by decide) (by decide)

/-! ## The view is released -/

/-- C4: in a run whose view acquisition succeeds, whatever `execute` returns,
`ReleaseStringUTFChars` is called exactly once, with the host string of the call and the
view pointer `GetStringUTFChars` returned, and after `execute` has returned: the record
splits at the return of `execute` into a part without any release and a part that holds
the release. -/
theorem view_released_once {σ : Type} (rs : Reactnativers σ) (env : JNIEnv σ)
    (cmd : JString) (s : σ) (hview : viewOf env cmd s ≠ nullptr) :
    (trace rs env cmd s).filter Op.isRelease =
        [Op.ReleaseStringUTFChars cmd (viewOf env cmd s)] ∧
      (trace rs env cmd s).count (Op.ReleaseStringUTFChars cmd (viewOf env cmd s)) = 1 ∧
      Op.GetStringUTFChars cmd JNI_FALSE (viewOf env cmd s) ∈ trace rs env cmd s ∧
      ∃ before after,
        trace rs env cmd s =
          before ++ Op.execute (viewOf env cmd s) (resOf rs env cmd s) :: after ∧
        (∀ o ∈ before, o.isRelease = false) ∧
        Op.ReleaseStringUTFChars cmd (viewOf env cmd s) ∈ after := by
  rw [trace_view rs env cmd s hview]
  refine ⟨by simp [Op.isRelease], by simp [List.count_cons], by simp, ?_⟩
  refine ⟨[Op.GetStringUTFChars cmd JNI_FALSE (viewOf env cmd s)], _, rfl, ?_, ?_⟩
  · intro o ho
    simp only [List.mem_singleton] at ho
    subst ho
    rfl
  · simp

/-- C4, at a concrete run with a null result: `ping` on the reference machine with the
null core. -/
theorem view_released_once_witness :
    (trace nullCore referenceEnv 1 bootMachine).filter Op.isRelease =
        [Op.ReleaseStringUTFChars 1 (viewOf referenceEnv 1 bootMachine)] ∧
      (trace nullCore referenceEnv 1 bootMachine).count
          (Op.ReleaseStringUTFChars 1 (viewOf referenceEnv 1 bootMachine)) = 1 ∧
      Op.GetStringUTFChars 1 JNI_FALSE (viewOf referenceEnv 1 bootMachine) ∈
        trace nullCore referenceEnv 1 bootMachine ∧
      ∃ before after,
        trace nullCore referenceEnv 1 bootMachine =
          before ++ Op.execute (viewOf referenceEnv 1 bootMachine)
            (resOf nullCore referenceEnv 1 bootMachine) :: after ∧
        (∀ o ∈ before, o.isRelease = false) ∧
        Op.ReleaseStringUTFChars 1 (viewOf referenceEnv 1 bootMachine) ∈ after :=
  view_released_once nullCore referenceEnv 1 bootMachine (by decide)

/-! ## The order of the boundary operations -/

/-- C5: in a run whose view acquisition succeeds and in which `execute` returns a non-null
buffer, the boundary operations are exactly, in this order and with nothing in between:
acquire the view, `execute` on that view, release the view, copy the result into a host
string, release the result; and the adapter returns the host string the copy built. -/
theorem protocol_order {σ : Type} (rs : Reactnativers σ) (env : JNIEnv σ)
    (cmd : JString) (s : σ)
    (hview : viewOf env cmd s ≠ nullptr) (hres : resOf rs env cmd s ≠ nullptr) :
    trace rs env cmd s =
        [Op.GetStringUTFChars cmd JNI_FALSE (viewOf env cmd s),
          Op.execute (viewOf env cmd s) (resOf rs env cmd s),
          Op.ReleaseStringUTFChars cmd (viewOf env cmd s),
          Op.NewStringUTF (resOf rs env cmd s) (copyOf rs env cmd s),
          Op.free_string (resOf rs env cmd s)] ∧
      (nativeExecute rs env cmd (Probe.start s)).1 = copyOf rs env cmd s ∧
      (nativeExecute rs env cmd (Probe.start s)).2.world =
        rs.free_string (resOf rs env cmd s)
          (env.NewStringUTF (resOf rs env cmd s) (worldAtCopy rs env cmd s)).2 := by
  have _ := hres
  exact ⟨trace_view rs env cmd s hview, (result_view rs env cmd s hview).1,
    (result_view rs env cmd s hview).2⟩

/-- C5, at a concrete run: the command `ping` on the reference machine. -/
theorem protocol_order_witness :
    trace (referenceCore pingLogic) referenceEnv 1 bootMachine =
        [Op.GetStringUTFChars 1 JNI_FALSE (viewOf referenceEnv 1 bootMachine),
          Op.execute (viewOf referenceEnv 1 bootMachine)
            (resOf (referenceCore pingLogic) referenceEnv 1 bootMachine),
          Op.ReleaseStringUTFChars 1 (viewOf referenceEnv 1 bootMachine),
          Op.NewStringUTF (resOf (referenceCore pingLogic) referenceEnv 1 bootMachine)
            (copyOf (referenceCore pingLogic) referenceEnv 1 bootMachine),
          Op.free_string (resOf (referenceCore pingLogic) referenceEnv 1 bootMachine)] ∧
      (nativeExecute (referenceCore pingLogic) referenceEnv 1 (Probe.start bootMachine)).1 =
        copyOf (referenceCore pingLogic) referenceEnv 1 bootMachine ∧
      (nativeExecute (referenceCore pingLogic) referenceEnv 1 (Probe.start bootMachine)).2.world =
        (referenceCore pingLogic).free_string
          (resOf (referenceCore pingLogic) referenceEnv 1 bootMachine)
          (referenceEnv.NewStringUTF (resOf (referenceCore pingLogic) referenceEnv 1 bootMachine)
            (worldAtCopy (referenceCore pingLogic) referenceEnv 1 bootMachine)).2 :=
  protocol_order (referenceCore pingLogic) referenceEnv 1 bootMachine (by decide) (by decide)

/-! ## Failure of the copy -/

/-- C9: in a run whose view acquisition succeeds and in which `execute` returns a non-null
buffer, if `NewStringUTF` returns null then `free_string` is still called exactly once, on
the buffer `execute` returned and after the failed copy, and the adapter returns null. -/
theorem copy_failure_still_releases {σ : Type} (rs : Reactnativers σ) (env : JNIEnv σ)
    (cmd : JString) (s : σ)
    (hview : viewOf env cmd s ≠ nullptr) (hres : resOf rs env cmd s ≠ nullptr)
    (hcopy : copyOf rs env cmd s = nullptr) :
    (trace rs env cmd s).filter Op.isFreeString = [Op.free_string (resOf rs env cmd s)] ∧
      (trace rs env cmd s).count (Op.free_string (resOf rs env cmd s)) = 1 ∧
      (∃ before after,
        trace rs env cmd s =
          before ++ Op.NewStringUTF (resOf rs env cmd s) nullptr :: after ∧
        (∀ o ∈ before, o.isFreeString = false) ∧
        after = [Op.free_string (resOf rs env cmd s)]) ∧
      (nativeExecute rs env cmd (Probe.start s)).1 = nullptr := by
  have _ := hres
  rw [trace_view rs env cmd s hview, (result_view rs env cmd s hview).1, hcopy]
  refine ⟨by simp [Op.isFreeString], by simp [List.count_cons], ?_, rfl⟩
  refine ⟨[Op.GetStringUTFChars cmd JNI_FALSE (viewOf env cmd s),
    Op.execute (viewOf env cmd s) (resOf rs env cmd s),
    Op.ReleaseStringUTFChars cmd (viewOf env cmd s)], _, rfl, ?_, rfl⟩
  intro o ho
  simp only [List.mem_cons, List.mem_singleton, List.not_mem_nil, or_false] at ho
  rcases ho with rfl | rfl | rfl <;> rfl

/-- C9, at a concrete run: the command `ping` on a host that cannot build a string. -/
theorem copy_failure_still_releases_witness :
    (trace (referenceCore pingLogic) exhaustedEnv 1 bootMachine).filter Op.isFreeString =
        [Op.free_string (resOf (referenceCore pingLogic) exhaustedEnv 1 bootMachine)] ∧
      (trace (referenceCore pingLogic) exhaustedEnv 1 bootMachine).count
          (Op.free_string (resOf (referenceCore pingLogic) exhaustedEnv 1 bootMachine)) = 1 ∧
      (∃ before after,
        trace (referenceCore pingLogic) exhaustedEnv 1 bootMachine =
          before ++
            Op.NewStringUTF (resOf (referenceCore pingLogic) exhaustedEnv 1 bootMachine) nullptr ::
              after ∧
        (∀ o ∈ before, o.isFreeString = false) ∧
        after = [Op.free_string (resOf (referenceCore pingLogic) exhaustedEnv 1 bootMachine)]) ∧
      (nativeExecute (referenceCore pingLogic) exhaustedEnv 1 (Probe.start bootMachine)).1 =
        nullptr :=
  copy_failure_still_releases (referenceCore pingLogic) exhaustedEnv 1 bootMachine
    (by decide) (by decide) (by decide)

/-! ## Facts about tables -/

/-- A fresh key is not null. -/
theorem freshKey_pos {α : Type} (t : Table α) : 0 < freshKey t := by
  cases t with
  | nil => simp [freshKey]
  | cons c t => simp [freshKey]

/-- Every live key lies below the fresh key. -/
theorem lt_freshKey_of_load {α : Type} (t : Table α) (key : Nat) (x : α)
    (h : load t key = some x) : key < freshKey t := by
  induction t with
  | nil => simp [load] at h
  | cons c t ih =>
    obtain ⟨a, y⟩ := c
    simp only [load] at h
    simp only [freshKey]
    by_cases hk : a = key
    · subst hk
      exact lt_max_of_lt_left (Nat.lt_succ_self a)
    · rw [if_neg hk] at h
      exact lt_max_of_lt_right (ih h)

/-- A fresh key is not live. -/
theorem load_freshKey {α : Type} (t : Table α) : load t (freshKey t) = none := by
  cases h : load t (freshKey t) with
  | none => rfl
  | some x => exact absurd (lt_freshKey_of_load t _ x h) (lt_irrefl _)

/-- Right after an allocation the new key holds what was stored. -/
theorem load_alloc_self {α : Type} (t : Table α) (x : α) :
    load (alloc t x).2 (alloc t x).1 = some x := by
  simp [alloc, load]

/-- An allocation leaves every live key as it was. -/
theorem load_alloc_of_live {α : Type} (t : Table α) (x y : α) (key : Nat)
    (h : load t key = some y) : load (alloc t x).2 key = some y := by
  have hlt := lt_freshKey_of_load t key y h
  have hne : freshKey t ≠ key := Nat.ne_of_gt hlt
  simp [alloc, load, hne, h]

/-- A deallocation leaves every other key as it was. -/
theorem load_dealloc_of_ne {α : Type} (t : Table α) (key gone : Nat) (h : key ≠ gone) :
    load (dealloc t gone) key = load t key := by
  induction t with
  | nil => rfl
  | cons c t ih =>
    obtain ⟨a, y⟩ := c
    simp only [dealloc]
    by_cases hg : a = gone
    · have hk : a ≠ key := fun e => h (e ▸ hg)
      rw [if_pos hg, ih]
      simp [load, hk]
    · rw [if_neg hg]
      simp only [load, ih]

/-- The bytes before the first zero of a buffer that ends in an added terminator are the
bytes before the first zero of what precedes the terminator. -/
theorem takeWhile_terminated (l : List Byte) :
    (l ++ [0]).takeWhile (fun c => c != 0) = l.takeWhile (fun c => c != 0) := by
  induction l with
  | nil => simp [List.takeWhile]
  | cons c l ih =>
    by_cases hc : c = 0
    · simp [List.takeWhile, hc]
    · simp [List.takeWhile, hc, ih]

/-- The string at a buffer that holds `l` followed by a terminator. -/
theorem cstr_of_load (m : Mem) (p : Ptr) (l : List Byte)
    (h : load m p = some (l ++ [0])) :
    cstr m p = some (l.takeWhile (fun c => c != 0)) := by
  simp [cstr, h, takeWhile_terminated]

/-- The string at a pointer depends only on the buffer stored there. -/
theorem cstr_congr (m n : Mem) (p : Ptr) (h : load n p = load m p) : cstr n p = cstr m p := by
  simp [cstr, h]

/-- A pointer at which a string can be read is a live buffer. -/
theorem load_of_cstr (m : Mem) (p : Ptr) (l : List Byte) (h : cstr m p = some l) :
    ∃ raw, load m p = some raw := by
  cases hl : load m p with
  | none => simp [cstr, hl] at h
  | some raw => exact ⟨raw, rfl⟩

/-! ## The executor always answers with a buffer -/

/-- C7: for every non-null command pointer at which a null-terminated byte string can be
read, `execute` returns, and what it returns is a non-null pointer to a newly allocated,
null-terminated buffer that holds the answer; when the command semantics fails internally
the buffer holds the error payload, and the result is still not null.  The command buffer
is left as it was. -/
theorem execute_never_null (logic : Logic) (cmd : Ptr) (m : Mem) (command : List Byte)
    (hcmd : cmd ≠ nullptr) (hvalid : cstr m cmd = some command) :
    ∃ res m', execute logic cmd m = some (res, m') ∧ res ≠ nullptr ∧
      load m res = none ∧
      (∃ raw, load m' res = some raw ∧ 0 ∈ raw) ∧
      cstr m' res = some ((payload logic command).takeWhile (fun c => c != 0)) ∧
      (∀ e, logic command = .error e →
        cstr m' res = some (e.takeWhile (fun c => c != 0))) ∧
      cstr m' cmd = some command := by
  refine ⟨(alloc m (payload logic command ++ [0])).1,
    (alloc m (payload logic command ++ [0])).2, ?_, ?_, ?_, ?_, ?_, ?_, ?_⟩
  · simp [execute, hcmd, hvalid]
  · exact Nat.ne_of_gt (freshKey_pos m)
  · exact load_freshKey m
  · exact ⟨_, load_alloc_self m _, by simp⟩
  · exact cstr_of_load _ _ _ (load_alloc_self m _)
  · intro e he
    have hp : payload logic command = e := by simp [payload, he]
    rw [← hp]
    exact cstr_of_load _ _ _ (load_alloc_self m _)
  · obtain ⟨raw, hraw⟩ := load_of_cstr m cmd command hvalid
    rw [cstr_congr m _ cmd (by rw [hraw]; exact load_alloc_of_live m _ raw cmd hraw)]
    exact hvalid

/-- C7, at a concrete call: a command other than `ping`, for which the command semantics
fails internally, read from a heap that holds it at address 4. -/
theorem execute_never_null_witness :
    ∃ res m', execute pingLogic 4 [(4, [122, 105, 112, 0])] = some (res, m') ∧
      res ≠ nullptr ∧
      load [(4, [122, 105, 112, 0])] res = none ∧
      (∃ raw, load m' res = some raw ∧ 0 ∈ raw) ∧
      cstr m' res = some ((payload pingLogic [122, 105, 112]).takeWhile (fun c => c != 0)) ∧
      (∀ e, pingLogic [122, 105, 112] = .error e →
        cstr m' res = some (e.takeWhile (fun c => c != 0))) ∧
      cstr m' 4 = some [122, 105, 112] :=
  execute_never_null pingLogic 4 [(4, [122, 105, 112, 0])] [122, 105, 112]
    (by decide) (by decide)

/-! ## The round trip on the reference machine -/

/-- What `GetStringUTFChars` does on the reference machine for a reference that denotes
a string. -/
theorem referenceEnv_get (M : Machine) (cmd : JString) (isCopy : Ptr) (content : List Byte)
    (hcontent : load M.strings cmd = some content) :
    referenceEnv.GetStringUTFChars cmd isCopy M =
      (freshKey M.native, ⟨(freshKey M.native, content ++ [0]) :: M.native, M.strings⟩) := by
  simp [referenceEnv, hcontent, alloc]

/-- What `ReleaseStringUTFChars` does on the reference machine. -/
theorem referenceEnv_release (M : Machine) (cmd : JString) (utf : Ptr) :
    referenceEnv.ReleaseStringUTFChars cmd utf M = ⟨dealloc M.native utf, M.strings⟩ :=
  rfl

/-- What `NewStringUTF` does on the reference machine for a pointer at which a string can
be read. -/
theorem referenceEnv_new (M : Machine) (bytes : Ptr) (content : List Byte)
    (hcontent : cstr M.native bytes = some content) :
    referenceEnv.NewStringUTF bytes M =
      (freshKey M.strings, ⟨M.native, (freshKey M.strings, content) :: M.strings⟩) := by
  simp [referenceEnv, hcontent, alloc]

/-- What `execute` does on the reference machine where the executor is defined. -/
theorem referenceCore_execute (logic : Logic) (M : Machine) (cmd : Ptr) (r : Ptr × Mem)
    (hexec : execute logic cmd M.native = some r) :
    (referenceCore logic).execute cmd M = (r.1, ⟨r.2, M.strings⟩) := by
  simp [referenceCore, hexec]

/-- What `free_string` does on the reference machine. -/
theorem referenceCore_free (logic : Logic) (M : Machine) (ptr : Ptr) :
    (referenceCore logic).free_string ptr M = ⟨dealloc M.native ptr, M.strings⟩ :=
  rfl

/-- On the reference machine a run whose view acquisition succeeds goes through these
worlds: the view of the command is a new buffer, `execute` answers with a second new
buffer, and the copy is read from that buffer after the view has been released. -/
theorem reference_run (logic : Logic) (M : Machine) (cmd : JString) (content : List Byte)
    (hcontent : load M.strings cmd = some content) :
    viewOf referenceEnv cmd M = freshKey M.native ∧
      resOf (referenceCore logic) referenceEnv cmd M =
        freshKey ((freshKey M.native, content ++ [0]) :: M.native) ∧
      (worldAfterExecute (referenceCore logic) referenceEnv cmd M).native =
        (freshKey ((freshKey M.native, content ++ [0]) :: M.native),
          payload logic (content.takeWhile (fun c => c != 0)) ++ [0]) ::
          (freshKey M.native, content ++ [0]) :: M.native ∧
      (worldAtCopy (referenceCore logic) referenceEnv cmd M).native =
        dealloc (worldAfterExecute (referenceCore logic) referenceEnv cmd M).native
          (freshKey M.native) ∧
      (worldAtCopy (referenceCore logic) referenceEnv cmd M).strings = M.strings := by
  have hget := referenceEnv_get M cmd JNI_FALSE content hcontent
  have hne : freshKey M.native ≠ nullptr := Nat.ne_of_gt (freshKey_pos M.native)
  have hstr : cstr ((freshKey M.native, content ++ [0]) :: M.native) (freshKey M.native) =
      some (content.takeWhile (fun c => c != 0)) :=
    cstr_of_load _ _ _ (by simp [load])
  have hexec : execute logic (freshKey M.native)
      ((freshKey M.native, content ++ [0]) :: M.native) =
      some (alloc ((freshKey M.native, content ++ [0]) :: M.native)
        (payload logic (content.takeWhile (fun c => c != 0)) ++ [0])) := by
    simp [execute, hne, hstr]
  have hrun := referenceCore_execute logic
    ⟨(freshKey M.native, content ++ [0]) :: M.native, M.strings⟩ (freshKey M.native) _ hexec
  unfold worldAtCopy worldAfterExecute resOf viewOf
  rw [hget]
  simp only []
  rw [hrun, referenceEnv_release]
  exact ⟨trivial, rfl, rfl, rfl, rfl⟩

/-- C6: on the reference machine, in a run whose view acquisition succeeds and in which
`execute` returns a non-null buffer, the adapter returns the host string `NewStringUTF`
built from the buffer `execute` returned for the view of the command; that string is not
null and its content is exactly the bytes of that buffer up to its terminator, which are
the bytes of the executor's answer to the command, whatever bytes they are. -/
theorem round_trip (logic : Logic) (M : Machine) (cmd : JString)
    (hview : viewOf referenceEnv cmd M ≠ nullptr)
    (hres : resOf (referenceCore logic) referenceEnv cmd M ≠ nullptr) :
    (nativeExecute (referenceCore logic) referenceEnv cmd (Probe.start M)).1 =
        (referenceEnv.NewStringUTF (resOf (referenceCore logic) referenceEnv cmd M)
          (worldAtCopy (referenceCore logic) referenceEnv cmd M)).1 ∧
      (nativeExecute (referenceCore logic) referenceEnv cmd (Probe.start M)).1 ≠ nullptr ∧
      ∃ buffer,
        cstr (worldAfterExecute (referenceCore logic) referenceEnv cmd M).native
            (resOf (referenceCore logic) referenceEnv cmd M) = some buffer ∧
          load (nativeExecute (referenceCore logic) referenceEnv cmd (Probe.start M)).2.world.strings
            (nativeExecute (referenceCore logic) referenceEnv cmd (Probe.start M)).1 =
              some buffer ∧
          ∀ content, load M.strings cmd = some content →
            buffer = (payload logic (content.takeWhile (fun c => c != 0))).takeWhile
              (fun c => c != 0) := by
  have _ := hres
  obtain ⟨content, hcontent⟩ : ∃ content, load M.strings cmd = some content := by
    cases h : load M.strings cmd with
    | none => exact absurd (by simp [viewOf, referenceEnv, h]) hview
    | some content => exact ⟨content, rfl⟩
  obtain ⟨hv, hr, hw2, hw3, hs3⟩ := reference_run logic M cmd content hcontent
  have hlive : load ((freshKey M.native, content ++ [0]) :: M.native) (freshKey M.native) =
      some (content ++ [0]) := by simp [load]
  have hrv : resOf (referenceCore logic) referenceEnv cmd M ≠ freshKey M.native := by
    rw [hr]
    exact Nat.ne_of_gt (lt_freshKey_of_load _ _ _ hlive)
  have hbuf : cstr (worldAfterExecute (referenceCore logic) referenceEnv cmd M).native
      (resOf (referenceCore logic) referenceEnv cmd M) =
      some ((payload logic (content.takeWhile (fun c => c != 0))).takeWhile
        (fun c => c != 0)) := by
    rw [hw2, hr]
    exact cstr_of_load _ _ _ (by simp [load])
  have hcopy : cstr (worldAtCopy (referenceCore logic) referenceEnv cmd M).native
      (resOf (referenceCore logic) referenceEnv cmd M) =
      some ((payload logic (content.takeWhile (fun c => c != 0))).takeWhile
        (fun c => c != 0)) := by
    rw [hw3, cstr_congr _ _ _ (load_dealloc_of_ne _ _ _ hrv)]
    exact hbuf
  obtain ⟨h1, h2⟩ := result_view (referenceCore logic) referenceEnv cmd M hview
  rw [h1, h2]
  refine ⟨rfl, ?_, _, hbuf, ?_, ?_⟩
  · unfold copyOf
    rw [referenceEnv_new _ _ _ hcopy]
    exact Nat.ne_of_gt (freshKey_pos _)
  · unfold copyOf
    rw [referenceEnv_new _ _ _ hcopy, referenceCore_free]
    simp [load]
  · intro c hc
    rw [hcontent] at hc
    cases hc
    rfl

/-- C6, at a concrete run: the command `ping`, whose answer `pong ✓` holds a three-byte
character, and the host string the adapter returns holds exactly those bytes. -/
theorem round_trip_witness :
    load (nativeExecute (referenceCore pingLogic) referenceEnv 1
        (Probe.start bootMachine)).2.world.strings
        (nativeExecute (referenceCore pingLogic) referenceEnv 1 (Probe.start bootMachine)).1 =
          some pongCheck ∧
      ((nativeExecute (referenceCore pingLogic) referenceEnv 1 (Probe.start bootMachine)).1 =
        (referenceEnv.NewStringUTF (resOf (referenceCore pingLogic) referenceEnv 1 bootMachine)
          (worldAtCopy (referenceCore pingLogic) referenceEnv 1 bootMachine)).1 ∧
      (nativeExecute (referenceCore pingLogic) referenceEnv 1 (Probe.start bootMachine)).1 ≠
        nullptr ∧
      ∃ buffer,
        cstr (worldAfterExecute (referenceCore pingLogic) referenceEnv 1 bootMachine).native
            (resOf (referenceCore pingLogic) referenceEnv 1 bootMachine) = some buffer ∧
          load (nativeExecute (referenceCore pingLogic) referenceEnv 1
              (Probe.start bootMachine)).2.world.strings
            (nativeExecute (referenceCore pingLogic) referenceEnv 1 (Probe.start bootMachine)).1 =
              some buffer ∧
          ∀ content, load bootMachine.strings 1 = some content →
            buffer = (payload pingLogic (content.takeWhile (fun c => c != 0))).takeWhile
              (fun c => c != 0)) :=
  ⟨by decide, round_trip pingLogic bootMachine 1 (by decide) (by decide)⟩

/-! ## No state between calls -/

end ReactNativeRs
